import Mathlib

/-!
Verification of the offline-eth-toolkit transaction codec and signing pipeline.

The builders (`build_legacy_preimage`, `build_eip1559_signing_payload`) and the
parser (`parse_unsigned`) are embedded from `src/tx_builder/src/main.rs` and
`src/tx_signer/src/main.rs`.  The RLP codec itself is the `rlp` crate, which is
not part of the repository sources; it is modelled from the specification of
the RLP Codec component (spec section 4.1): minimal big-endian integers, the
single-byte / short / long string forms, and the disjoint list marker range.
Bytes are modelled as natural numbers; machine integers carry explicit bounds
in the theorems where they matter.
-/

namespace OfflineEthToolkit

/-- Big-endian value of a byte string (spec 4.1: integers are minimal
big-endian byte strings). -/
def natOfBe (l : List Nat) : Nat := l.foldl (fun a b => 256 * a + b) 0

/-- Fuel-driven minimal big-endian encoding; the fuel only bounds the
recursion depth and is irrelevant once it is at least the value. -/
def beBytesF : Nat → Nat → List Nat
  | 0, _ => []
  | fuel + 1, n => if n = 0 then [] else beBytesF fuel (n / 256) ++ [n % 256]

/-- Modelled from the spec: minimal big-endian byte string of an unsigned
integer, with no leading zero byte; zero encodes as the empty string. -/
def beBytes (n : Nat) : List Nat := beBytesF n n

theorem beBytesF_zero (fuel : Nat) : beBytesF fuel 0 = [] := by
  cases fuel <;> simp [beBytesF]

theorem beBytesF_eq_of_le (n : Nat) :
    ∀ f g, n ≤ f → n ≤ g → beBytesF f n = beBytesF g n := by
  induction n using Nat.strong_induction_on with
  | _ n ih =>
    intro f g hf hg
    rcases Nat.eq_zero_or_pos n with hn | hn
    · subst hn; rw [beBytesF_zero, beBytesF_zero]
    · obtain ⟨f', rfl⟩ : ∃ f', f = f' + 1 := ⟨f - 1, by omega⟩
      obtain ⟨g', rfl⟩ : ∃ g', g = g' + 1 := ⟨g - 1, by omega⟩
      have hdiv : n / 256 < n := Nat.div_lt_self hn (by omega)
      simp only [beBytesF, if_neg (by omega : ¬ n = 0)]
      rw [ih (n / 256) hdiv f' g' (by omega) (by omega)]

theorem beBytes_eq (n : Nat) :
    beBytes n = if n = 0 then [] else beBytes (n / 256) ++ [n % 256] := by
  rcases Nat.eq_zero_or_pos n with hn | hn
  · subst hn; simp [beBytes, beBytesF]
  · obtain ⟨m, rfl⟩ : ∃ m, n = m + 1 := ⟨n - 1, by omega⟩
    simp only [beBytes, beBytesF, if_neg (by omega : ¬ m + 1 = 0)]
    rw [beBytesF_eq_of_le ((m + 1) / 256) m ((m + 1) / 256)
      (by omega) (le_refl _)]

theorem natOfBe_nil : natOfBe [] = 0 := rfl

theorem natOfBe_append_singleton (l : List Nat) (b : Nat) :
    natOfBe (l ++ [b]) = 256 * natOfBe l + b := by
  simp [natOfBe, List.foldl_append]

theorem natOfBe_beBytes (n : Nat) : natOfBe (beBytes n) = n := by
  induction n using Nat.strong_induction_on with
  | _ n ih =>
    rcases Nat.eq_zero_or_pos n with hn | hn
    · subst hn; simp [beBytes, beBytesF, natOfBe]
    · rw [beBytes_eq, if_neg (by omega : ¬ n = 0), natOfBe_append_singleton,
        ih (n / 256) (Nat.div_lt_self hn (by omega))]
      omega

theorem beBytes_eq_nil_iff (n : Nat) : beBytes n = [] ↔ n = 0 := by
  constructor
  · intro h
    by_contra hn
    rw [beBytes_eq, if_neg hn] at h
    simp at h
  · intro h; subst h; rfl

theorem headI_append_of_ne_nil {l r : List Nat} (h : l ≠ []) :
    (l ++ r).headI = l.headI := by
  cases l with
  | nil => exact absurd rfl h
  | cons a t => rfl

theorem beBytes_headI_ne_zero (n : Nat) (hn : n ≠ 0) :
    (beBytes n).headI ≠ 0 := by
  induction n using Nat.strong_induction_on with
  | _ n ih =>
    intro hn0
    rw [beBytes_eq, if_neg hn] at hn0
    rcases Nat.eq_zero_or_pos (n / 256) with hdz | hdp
    · rw [hdz] at hn0
      simp only [(beBytes_eq_nil_iff 0).mpr rfl, List.nil_append, List.headI] at hn0
      have hd := Nat.div_add_mod n 256
      rw [hdz] at hd
      omega
    · rw [headI_append_of_ne_nil ((beBytes_eq_nil_iff _).not.mpr (by omega))] at hn0
      exact ih (n / 256) (Nat.div_lt_self (by omega) (by omega)) (by omega) hn0

theorem natOfBe_foldl_init (l : List Nat) :
    ∀ a : Nat, List.foldl (fun x b => 256 * x + b) a l
      = a * 256 ^ l.length + natOfBe l := by
  induction l with
  | nil => intro a; simp [natOfBe]
  | cons b t ih =>
    intro a
    simp only [List.foldl_cons, List.length_cons]
    rw [ih (256 * a + b)]
    have hb : natOfBe (b :: t) = b * 256 ^ t.length + natOfBe t := by
      simp only [natOfBe, List.foldl_cons]
      have := ih b
      simpa [natOfBe] using this
    rw [hb]; ring

theorem natOfBe_cons (b : Nat) (t : List Nat) :
    natOfBe (b :: t) = b * 256 ^ t.length + natOfBe t := by
  simp only [natOfBe, List.foldl_cons]
  simpa [natOfBe] using natOfBe_foldl_init t b

theorem natOfBe_pos (l : List Nat) (hne : l ≠ []) (hh : l.headI ≠ 0) :
    0 < natOfBe l := by
  cases l with
  | nil => exact absurd rfl hne
  | cons b t =>
    rw [natOfBe_cons]
    have : 0 < 256 ^ t.length := Nat.pos_pow_of_pos _ (by omega)
    have hb : 0 < b := by simpa [List.headI] using Nat.pos_of_ne_zero hh
    have : 0 < b * 256 ^ t.length := Nat.mul_pos hb this
    omega

theorem beBytes_length_le (k : Nat) :
    ∀ n, n < 256 ^ k → (beBytes n).length ≤ k := by
  induction k with
  | zero => intro n h; interval_cases n; simp [beBytes, beBytesF]
  | succ k ih =>
    intro n h
    rcases Nat.eq_zero_or_pos n with hn | hn
    · subst hn; simp [beBytes, beBytesF]
    · rw [beBytes_eq, if_neg (by omega : ¬ n = 0)]
      have hdiv : n / 256 < 256 ^ k := by
        rw [Nat.div_lt_iff_lt_mul (by omega : 0 < 256)]
        calc n < 256 ^ (k + 1) := h
          _ = 256 ^ k * 256 := by rw [Nat.pow_succ]
      have := ih (n / 256) hdiv
      simp [List.length_append]
      omega

/-- Modelled from the spec: the RLP length marker.  A payload of at most 55
bytes gets a direct-length prefix `offset + len`; a longer payload gets the
length-of-length form (spec 4.1).  `offset` is `0x80` for strings and `0xc0`
for lists. -/
def encLen (offset len : Nat) : List Nat :=
  if len ≤ 55 then [offset + len]
  else (offset + 55 + (beBytes len).length) :: beBytes len

/-- Modelled from the spec: RLP encoding of a byte string.  A single byte
below `0x80` encodes as itself; otherwise the string is prefixed by its
length marker (spec 4.1). -/
def encodeStr (s : List Nat) : List Nat :=
  if s.length = 1 ∧ s.headI < 0x80 then s else encLen 0x80 s.length ++ s

/-- A decoded RLP node, one level deep: its type (`true` = list) and its raw
payload bytes. -/
abbrev Span := Bool × List Nat

/-- Modelled from the spec: RLP encoding of a one-level node — a byte string,
or a list given by its already-encoded payload (spec 4.1). -/
def encSpan : Span → List Nat
  | (false, s) => encodeStr s
  | (true, p) => encLen 0xc0 p.length ++ p

/-- Modelled from the spec: RLP encoding of a list of items, as the list
marker applied to the concatenation of the encoded child items (spec 4.1). -/
def encodeSpanList (spans : List Span) : List Nat :=
  encLen 0xc0 ((spans.map encSpan).flatten).length ++ (spans.map encSpan).flatten

/-- `RlpStream::new_list` followed by appends and `out()`: the list prefix
over the concatenation of the appended chunks. -/
def rlpStreamOut (chunks : List (List Nat)) : List Nat :=
  encLen 0xc0 chunks.flatten.length ++ chunks.flatten

/-- `RlpStream::append` of a `U256`: the minimal big-endian byte string of
the value, encoded as an RLP string. -/
def encU256 (n : Nat) : List Nat := encodeStr (beBytes n)

/-- From src/tx_builder `build_legacy_preimage`: RLP of the 9-item list
[nonce, gasPrice, gasLimit, to, value, data, chainId, 0, 0], streamed in the
source's append order. -/
def build_legacy_preimage (toAddr : List Nat)
    (value_wei gas_price_wei gas_limit nonce chain_id : Nat)
    (data : List Nat) : List Nat :=
  rlpStreamOut [encU256 nonce, encU256 gas_price_wei, encU256 gas_limit,
    encodeStr toAddr, encU256 value_wei, encodeStr data, encU256 chain_id,
    encU256 0, encU256 0]

/-- From src/tx_builder `build_eip1559_signing_payload`: a leading `0x02`
byte, then RLP of the 9-item list [chainId, nonce, maxPriorityFeePerGas,
maxFeePerGas, gasLimit, to, value, data, accessList], with the access list
appended raw as the encoding of an empty list. -/
def build_eip1559_signing_payload (chain_id nonce max_priority_fee max_fee
    gas_limit : Nat) (toAddr : List Nat) (value : Nat) (data : List Nat) :
    List Nat :=
  2 :: rlpStreamOut [encU256 chain_id, encU256 nonce, encU256 max_priority_fee,
    encU256 max_fee, encU256 gas_limit, encodeStr toAddr, encU256 value,
    encodeStr data, rlpStreamOut []]

/-- Take exactly `n` bytes from the front, failing when the buffer is
truncated relative to the declared length (spec 4.1). -/
def takeExact (n : Nat) (l : List Nat) : Option (List Nat × List Nat) :=
  if n ≤ l.length then some (l.take n, l.drop n) else none

/-- Modelled from the spec: decode the RLP header at the front of a buffer,
returning the node type, its payload, and the remaining bytes.  Fails on an
empty buffer, a truncated payload, or a non-canonical encoding (a single
byte below `0x80` wrapped in a prefix, a length-of-length with a leading
zero, or a long form used for a short payload). -/
def splitItem : List Nat → Option (Bool × List Nat × List Nat)
  | [] => none
  | b :: tl =>
    if b < 0x80 then some (false, [b], tl)
    else if b ≤ 0xb7 then
      match takeExact (b - 0x80) tl with
      | none => none
      | some (pl, rest) =>
        if b = 0x81 ∧ pl.headI < 0x80 then none else some (false, pl, rest)
    else if b ≤ 0xbf then
      match takeExact (b - 0xb7) tl with
      | none => none
      | some (lenB, rest1) =>
        if lenB.headI = 0 ∨ natOfBe lenB ≤ 55 then none
        else
          match takeExact (natOfBe lenB) rest1 with
          | none => none
          | some (pl, rest) => some (false, pl, rest)
    else if b ≤ 0xf7 then
      match takeExact (b - 0xc0) tl with
      | none => none
      | some (pl, rest) => some (true, pl, rest)
    else
      match takeExact (b - 0xf7) tl with
      | none => none
      | some (lenB, rest1) =>
        if lenB.headI = 0 ∨ natOfBe lenB ≤ 55 then none
        else
          match takeExact (natOfBe lenB) rest1 with
          | none => none
          | some (pl, rest) => some (true, pl, rest)

/-- Split a list payload into its consecutive top-level items; the fuel only
bounds the recursion depth. -/
def splitItemsF : Nat → List Nat → Option (List Span)
  | fuel, bytes =>
    match bytes with
    | [] => some []
    | b :: tl =>
      match fuel with
      | 0 => none
      | fuel' + 1 =>
        match splitItem (b :: tl) with
        | none => none
        | some (isL, pl, rest) =>
          match splitItemsF fuel' rest with
          | none => none
          | some out => some ((isL, pl) :: out)

/-- Modelled from the spec: item sequence of a list payload ( `item_count`
and per-index access walk these headers). -/
def splitItems (bytes : List Nat) : Option (List Span) :=
  splitItemsF bytes.length bytes

/-- Modelled from the spec: view a whole buffer as an RLP list and expose its
top-level items; fails if the buffer is not a single well-formed list. -/
def rlpItems (bytes : List Nat) : Option (List Span) :=
  match splitItem bytes with
  | some (true, payload, []) => splitItems payload
  | _ => none

/-- Modelled from the spec: `val_at::<U256>` — the node must be a byte string
of at most 32 bytes with no leading zero byte; its big-endian value is
returned (spec 4.1, minimal-integer decoding). -/
def decodeUint : Span → Option Nat
  | (true, _) => none
  | (false, bytes) =>
    if 32 < bytes.length then none
    else if bytes ≠ [] ∧ bytes.headI = 0 then none
    else some (natOfBe bytes)

/-- Modelled from the spec: `val_at::<Address>` — the node must be a byte
string of exactly 20 bytes. -/
def decodeAddress : Span → Option (List Nat)
  | (true, _) => none
  | (false, bytes) => if bytes.length = 20 then some bytes else none

/-- Modelled from the spec: `val_at::<Vec<u8>>` — the node must be a byte
string; its raw bytes are returned. -/
def decodeBytes : Span → Option (List Nat)
  | (true, _) => none
  | (false, bytes) => some bytes

theorem takeExact_append (l r : List Nat) :
    takeExact l.length (l ++ r) = some (l, r) := by
  unfold takeExact
  rw [if_pos (by simp)]
  rw [List.take_left, List.drop_left]

/-- A string item respects the wire format's 8-byte length-of-length cap;
list payloads are unconstrained at this level. -/
def spanOk : Span → Prop
  | (false, s) => s.length < 2 ^ 64
  | (true, _) => True

instance : DecidablePred spanOk := fun sp =>
  match sp with
  | (false, s) => inferInstanceAs (Decidable (s.length < 2 ^ 64))
  | (true, _) => inferInstanceAs (Decidable True)

theorem splitItem_encodeStr (s rest : List Nat) (h : s.length < 2 ^ 64) :
    splitItem (encodeStr s ++ rest) = some (false, s, rest) := by
  unfold encodeStr
  by_cases hc : s.length = 1 ∧ s.headI < 0x80
  · obtain ⟨b, rfl⟩ := List.length_eq_one.mp hc.1
    rw [if_pos hc]
    simp only [List.cons_append, List.nil_append, splitItem]
    rw [if_pos (by simpa [List.headI] using hc.2)]
  · rw [if_neg hc]
    by_cases hlen : s.length ≤ 55
    · have henc : encLen 0x80 s.length = [0x80 + s.length] := by
        unfold encLen; rw [if_pos hlen]
      rw [henc]
      simp only [List.cons_append, List.nil_append, splitItem, List.append_assoc]
      rw [if_neg (by omega), if_pos (by omega)]
      have hsub : 0x80 + s.length - 0x80 = s.length := by omega
      rw [hsub, takeExact_append]
      simp only
      rw [if_neg ?hcanon]
      case hcanon =>
        rintro ⟨h81, hlow⟩
        have hs1 : s.length = 1 := by omega
        obtain ⟨b, rfl⟩ := List.length_eq_one.mp hs1
        exact hc ⟨hs1, by simpa [List.headI] using hlow⟩
    · have hpos : s.length ≠ 0 := by omega
      have hll1 : (beBytes s.length).length ≠ 0 := by
        simpa [List.length_eq_zero] using
          (beBytes_eq_nil_iff s.length).not.mpr hpos
      have hll8 : (beBytes s.length).length ≤ 8 := by
        apply beBytes_length_le
        calc s.length < 2 ^ 64 := h
          _ = 256 ^ 8 := by norm_num
      have henc : encLen 0x80 s.length
          = (0x80 + 55 + (beBytes s.length).length) :: beBytes s.length := by
        unfold encLen; rw [if_neg hlen]
      rw [henc]
      simp only [List.cons_append, splitItem, List.append_assoc]
      rw [if_neg (by omega), if_neg (by omega), if_pos (by omega)]
      have hsub : 0x80 + 55 + (beBytes s.length).length - 0xb7
          = (beBytes s.length).length := by omega
      rw [hsub, takeExact_append]
      simp only
      rw [if_neg ?hlenb]
      case hlenb =>
        rw [natOfBe_beBytes]
        push_neg
        exact ⟨beBytes_headI_ne_zero _ hpos, by omega⟩
      rw [natOfBe_beBytes, takeExact_append]

theorem splitItem_encListPayload (p rest : List Nat) :
    splitItem ((encLen 0xc0 p.length ++ p) ++ rest) = some (true, p, rest) := by
  by_cases hlen : p.length ≤ 55
  · have henc : encLen 0xc0 p.length = [0xc0 + p.length] := by
      unfold encLen; rw [if_pos hlen]
    rw [henc]
    simp only [List.cons_append, List.nil_append, splitItem, List.append_assoc]
    rw [if_neg (by omega), if_neg (by omega), if_neg (by omega),
      if_pos (by omega)]
    have hsub : 0xc0 + p.length - 0xc0 = p.length := by omega
    rw [hsub, takeExact_append]
  · have hpos : p.length ≠ 0 := by omega
    have hll1 : (beBytes p.length).length ≠ 0 := by
      simpa [List.length_eq_zero] using
        (beBytes_eq_nil_iff p.length).not.mpr hpos
    have henc : encLen 0xc0 p.length
        = (0xc0 + 55 + (beBytes p.length).length) :: beBytes p.length := by
      unfold encLen; rw [if_neg hlen]
    rw [henc]
    simp only [List.cons_append, splitItem, List.append_assoc]
    rw [if_neg (by omega), if_neg (by omega), if_neg (by omega),
      if_neg (by omega)]
    have hsub : 0xc0 + 55 + (beBytes p.length).length - 0xf7
        = (beBytes p.length).length := by omega
    rw [hsub, takeExact_append]
    simp only
    rw [if_neg ?hlenb]
    case hlenb =>
      rw [natOfBe_beBytes]
      push_neg
      exact ⟨beBytes_headI_ne_zero _ hpos, by omega⟩
    rw [natOfBe_beBytes, takeExact_append]

theorem splitItem_encSpan (sp : Span) (rest : List Nat) (h : spanOk sp) :
    splitItem (encSpan sp ++ rest) = some (sp.1, sp.2, rest) := by
  obtain ⟨isL, pl⟩ := sp
  cases isL
  · exact splitItem_encodeStr pl rest h
  · exact splitItem_encListPayload pl rest

theorem encLen_ne_nil (offset len : Nat) : encLen offset len ≠ [] := by
  unfold encLen; split <;> simp

theorem encSpan_ne_nil (sp : Span) : encSpan sp ≠ [] := by
  obtain ⟨isL, pl⟩ := sp
  cases isL
  · show encodeStr pl ≠ []
    unfold encodeStr
    split
    · next hc =>
        obtain ⟨b, rfl⟩ := List.length_eq_one.mp hc.1
        simp
    · intro hnil
      exact encLen_ne_nil 0x80 pl.length (List.append_eq_nil.mp hnil).1
  · show encLen 0xc0 pl.length ++ pl ≠ []
    intro hnil
    exact encLen_ne_nil 0xc0 pl.length (List.append_eq_nil.mp hnil).1

theorem splitItemsF_nil (fuel : Nat) : splitItemsF fuel [] = some [] := by
  unfold splitItemsF; rfl

theorem splitItemsF_encSpans (spans : List Span) :
    ∀ fuel, ((spans.map encSpan).flatten).length ≤ fuel →
    (∀ sp ∈ spans, spanOk sp) →
    splitItemsF fuel ((spans.map encSpan).flatten) = some spans := by
  induction spans with
  | nil => intro fuel _ _; simp only [List.map_nil, List.flatten_nil,
      splitItemsF_nil]
  | cons sp spans ih =>
    intro fuel hfuel hok
    obtain ⟨isL, pl⟩ := sp
    have hbytes : (((isL, pl) :: spans).map encSpan).flatten
        = encSpan (isL, pl) ++ (spans.map encSpan).flatten := by
      simp [List.map_cons, List.flatten_cons]
    have hsplen : 0 < (encSpan (isL, pl)).length :=
      List.length_pos.mpr (encSpan_ne_nil (isL, pl))
    have hlen : (encSpan (isL, pl) ++ (spans.map encSpan).flatten).length
        = (encSpan (isL, pl)).length + ((spans.map encSpan).flatten).length := by
      simp [List.length_append]
    rw [hbytes] at hfuel ⊢
    rw [hlen] at hfuel
    obtain ⟨fuel', rfl⟩ : ∃ f, fuel = f + 1 := ⟨fuel - 1, by omega⟩
    obtain ⟨b, tl, hbt⟩ : ∃ b tl,
        encSpan (isL, pl) ++ (spans.map encSpan).flatten = b :: tl := by
      cases hx : encSpan (isL, pl) ++ (spans.map encSpan).flatten with
      | nil =>
        exact absurd (List.append_eq_nil.mp hx).1 (encSpan_ne_nil (isL, pl))
      | cons b tl => exact ⟨b, tl, rfl⟩
    have hsp := splitItem_encSpan (isL, pl) ((spans.map encSpan).flatten)
      (hok (isL, pl) (by simp))
    rw [hbt] at hsp ⊢
    show (match splitItem (b :: tl) with
      | none => none
      | some (isL2, pl2, rest) =>
        match splitItemsF fuel' rest with
        | none => none
        | some out => some ((isL2, pl2) :: out)) = some ((isL, pl) :: spans)
    rw [hsp]
    show (match splitItemsF fuel' ((spans.map encSpan).flatten) with
      | none => none
      | some out => some ((isL, pl) :: out)) = some ((isL, pl) :: spans)
    rw [ih fuel' (by omega) (fun x hx => hok x (by simp [hx]))]

theorem splitItems_encSpans (spans : List Span)
    (hok : ∀ sp ∈ spans, spanOk sp) :
    splitItems ((spans.map encSpan).flatten) = some spans :=
  splitItemsF_encSpans spans _ (le_refl _) hok

theorem rlpItems_encodeSpanList (spans : List Span)
    (hok : ∀ sp ∈ spans, spanOk sp) :
    rlpItems (encodeSpanList spans) = some spans := by
  unfold rlpItems encodeSpanList
  have h := splitItem_encListPayload ((spans.map encSpan).flatten) []
  rw [List.append_nil] at h
  rw [h]
  exact splitItems_encSpans spans hok

theorem encodeSpanList_head (spans : List Span) :
    ∃ b tl, encodeSpanList spans = b :: tl ∧ 0xc0 ≤ b := by
  unfold encodeSpanList encLen
  split
  · exact ⟨_, _, rfl, by omega⟩
  · exact ⟨_, _, rfl, by omega⟩

/-- Field tuple of the `UnsignedTx::Legacy` variant in src/tx_signer. -/
structure LegacyFields where
  nonce : Nat
  gas_price : Nat
  gas_limit : Nat
  toAddr : List Nat
  value : Nat
  data : List Nat
  chain_id : Nat
deriving DecidableEq

/-- Field tuple of the `UnsignedTx::Eip1559` variant in src/tx_signer (the
access list is enforced empty and therefore carried implicitly). -/
structure Eip1559Fields where
  chain_id : Nat
  nonce : Nat
  max_priority_fee : Nat
  max_fee : Nat
  gas_limit : Nat
  toAddr : List Nat
  value : Nat
  data : List Nat
deriving DecidableEq

/-- The `UnsignedTx` enum of src/tx_signer. -/
inductive UnsignedTx where
  | legacy : LegacyFields → UnsignedTx
  | eip1559 : Eip1559Fields → UnsignedTx
deriving DecidableEq

/-- From src/tx_signer `parse_unsigned`, legacy branch: the whole buffer must
be an RLP list of 9 items typed [uint, uint, uint, address, uint, bytes,
uint, uint, uint], and the two trailing values must both be zero.  All
`Result` errors collapse to `none`. -/
def parse_legacy_items (bytes : List Nat) : Option UnsignedTx :=
  match rlpItems bytes with
  | some [i0, i1, i2, i3, i4, i5, i6, i7, i8] =>
    match decodeUint i0, decodeUint i1, decodeUint i2, decodeAddress i3,
        decodeUint i4, decodeBytes i5, decodeUint i6, decodeUint i7,
        decodeUint i8 with
    | some nonce, some gas_price, some gas_limit, some toAddr, some value,
      some data, some chain_id, some r0, some s0 =>
      if r0 = 0 ∧ s0 = 0 then
        some (.legacy ⟨nonce, gas_price, gas_limit, toAddr, value, data,
          chain_id⟩)
      else none
    | _, _, _, _, _, _, _, _, _ => none
  | _ => none

/-- From src/tx_signer `parse_unsigned`, fee-market branch (after the leading
`0x02` has been stripped): an RLP list of 9 items typed [uint, uint, uint,
uint, uint, address, uint, bytes, -], where item 8 must be a list that
contains zero items. -/
def parse_eip1559_items (rest : List Nat) : Option UnsignedTx :=
  match rlpItems rest with
  | some [i0, i1, i2, i3, i4, i5, i6, i7, i8] =>
    match decodeUint i0, decodeUint i1, decodeUint i2, decodeUint i3,
        decodeUint i4, decodeAddress i5, decodeUint i6, decodeBytes i7 with
    | some chain_id, some nonce, some max_priority_fee, some max_fee,
      some gas_limit, some toAddr, some value, some data =>
      if i8.1 = true then
        match splitItems i8.2 with
        | some al =>
          if al.length = 0 then
            some (.eip1559 ⟨chain_id, nonce, max_priority_fee, max_fee,
              gas_limit, toAddr, value, data⟩)
          else none
        | none => none
      else none
    | _, _, _, _, _, _, _, _ => none
  | _ => none

/-- From src/tx_signer `parse_unsigned`: a leading `0x02` byte selects the
fee-market branch on the remainder; anything else (including the empty
buffer) is interpreted as a legacy preimage. -/
def parse_unsigned : List Nat → Option UnsignedTx
  | [] => parse_legacy_items []
  | b :: rest =>
    if b = 2 then parse_eip1559_items rest
    else parse_legacy_items (b :: rest)

theorem build_legacy_eq_encodeSpanList (toAddr : List Nat)
    (value_wei gas_price_wei gas_limit nonce chain_id : Nat)
    (data : List Nat) :
    build_legacy_preimage toAddr value_wei gas_price_wei gas_limit nonce
        chain_id data
      = encodeSpanList [(false, beBytes nonce), (false, beBytes gas_price_wei),
          (false, beBytes gas_limit), (false, toAddr),
          (false, beBytes value_wei), (false, data),
          (false, beBytes chain_id), (false, []), (false, [])] := rfl

theorem build_eip1559_eq_encodeSpanList (chain_id nonce max_priority_fee
    max_fee gas_limit : Nat) (toAddr : List Nat) (value : Nat)
    (data : List Nat) :
    build_eip1559_signing_payload chain_id nonce max_priority_fee max_fee
        gas_limit toAddr value data
      = 2 :: encodeSpanList [(false, beBytes chain_id), (false, beBytes nonce),
          (false, beBytes max_priority_fee), (false, beBytes max_fee),
          (false, beBytes gas_limit), (false, toAddr), (false, beBytes value),
          (false, data), (true, [])] := rfl

theorem decodeUint_beBytes (n : Nat) (h : n < 2 ^ 256) :
    decodeUint (false, beBytes n) = some n := by
  show (if 32 < (beBytes n).length then none
    else if beBytes n ≠ [] ∧ (beBytes n).headI = 0 then none
    else some (natOfBe (beBytes n))) = some n
  have hlen : (beBytes n).length ≤ 32 := by
    apply beBytes_length_le
    calc n < 2 ^ 256 := h
      _ = 256 ^ 32 := by norm_num
  rw [if_neg (by omega)]
  rcases Nat.eq_zero_or_pos n with hn | hn
  · subst hn
    rw [if_neg (by simp [beBytes, beBytesF])]
    simp [beBytes, beBytesF, natOfBe]
  · rw [if_neg (by
      rintro ⟨-, hh⟩
      exact beBytes_headI_ne_zero n (by omega) hh)]
    rw [natOfBe_beBytes]

theorem decodeAddress_eq (bytes : List Nat) (h : bytes.length = 20) :
    decodeAddress (false, bytes) = some bytes := by
  show (if bytes.length = 20 then some bytes else none) = some bytes
  rw [if_pos h]

theorem decodeBytes_eq (bytes : List Nat) :
    decodeBytes (false, bytes) = some bytes := rfl

theorem decodeUint_pos_of_ne_nil (s : List Nat) (r : Nat)
    (h : decodeUint (false, s) = some r) (hne : s ≠ []) : 0 < r := by
  have h2 : (if 32 < s.length then none
      else if s ≠ [] ∧ s.headI = 0 then none
      else some (natOfBe s)) = some r := h
  by_cases h32 : 32 < s.length
  · rw [if_pos h32] at h2; exact absurd h2 (by simp)
  · rw [if_neg h32] at h2
    by_cases hz : s ≠ [] ∧ s.headI = 0
    · rw [if_pos hz] at h2; exact absurd h2 (by simp)
    · rw [if_neg hz] at h2
      have hr : natOfBe s = r := by simpa using h2
      have hh : s.headI ≠ 0 := by
        by_contra hh0
        exact hz ⟨hne, by simpa using hh0⟩
      rw [← hr]
      exact natOfBe_pos s hne hh

theorem parse_unsigned_cons (b : Nat) (rest : List Nat) :
    parse_unsigned (b :: rest)
      = if b = 2 then parse_eip1559_items rest
        else parse_legacy_items (b :: rest) := rfl

theorem decodeUint_nil : decodeUint (false, ([] : List Nat)) = some 0 := rfl

theorem beBytes_length_lt_of_u256 (m : Nat) (hm : m < 2 ^ 256) :
    (beBytes m).length < 2 ^ 64 := by
  have h := beBytes_length_le 32 m (by
    calc m < 2 ^ 256 := hm
      _ = 256 ^ 32 := by norm_num)
  omega

theorem parse_build_legacy (toAddr : List Nat)
    (value_wei gas_price_wei gas_limit nonce chain_id : Nat) (data : List Nat)
    (hv : value_wei < 2 ^ 256) (hg : gas_price_wei < 2 ^ 256)
    (hl : gas_limit < 2 ^ 256) (hn : nonce < 2 ^ 256) (hc : chain_id < 2 ^ 256)
    (hto : toAddr.length = 20) (hdata : data.length < 2 ^ 64) :
    parse_unsigned (build_legacy_preimage toAddr value_wei gas_price_wei
        gas_limit nonce chain_id data)
      = some (.legacy ⟨nonce, gas_price_wei, gas_limit, toAddr, value_wei,
          data, chain_id⟩) := by
  rw [build_legacy_eq_encodeSpanList]
  have hok : ∀ sp ∈ ([(false, beBytes nonce), (false, beBytes gas_price_wei),
      (false, beBytes gas_limit), (false, toAddr), (false, beBytes value_wei),
      (false, data), (false, beBytes chain_id), (false, []), (false, [])] :
      List Span), spanOk sp := by
    intro sp hsp
    simp only [List.mem_cons, List.not_mem_nil, or_false] at hsp
    rcases hsp with rfl | rfl | rfl | rfl | rfl | rfl | rfl | rfl | rfl
    · exact beBytes_length_lt_of_u256 nonce hn
    · exact beBytes_length_lt_of_u256 gas_price_wei hg
    · exact beBytes_length_lt_of_u256 gas_limit hl
    · show toAddr.length < 2 ^ 64; omega
    · exact beBytes_length_lt_of_u256 value_wei hv
    · exact hdata
    · exact beBytes_length_lt_of_u256 chain_id hc
    · show ([] : List Nat).length < 2 ^ 64; simp
    · show ([] : List Nat).length < 2 ^ 64; simp
  obtain ⟨b, tl, hbt, hb⟩ := encodeSpanList_head [(false, beBytes nonce),
    (false, beBytes gas_price_wei), (false, beBytes gas_limit),
    (false, toAddr), (false, beBytes value_wei), (false, data),
    (false, beBytes chain_id), (false, []), (false, [])]
  rw [hbt, parse_unsigned_cons, if_neg (by omega), ← hbt]
  simp only [parse_legacy_items, rlpItems_encodeSpanList _ hok,
    decodeUint_beBytes nonce hn, decodeUint_beBytes gas_price_wei hg,
    decodeUint_beBytes gas_limit hl, decodeAddress_eq toAddr hto,
    decodeUint_beBytes value_wei hv, decodeBytes_eq,
    decodeUint_beBytes chain_id hc, decodeUint_nil]
  norm_num

theorem parse_build_eip1559 (chain_id nonce max_priority_fee max_fee
    gas_limit : Nat) (toAddr : List Nat) (value : Nat) (data : List Nat)
    (hc : chain_id < 2 ^ 256) (hn : nonce < 2 ^ 256)
    (hp : max_priority_fee < 2 ^ 256) (hm : max_fee < 2 ^ 256)
    (hl : gas_limit < 2 ^ 256) (hv : value < 2 ^ 256)
    (hto : toAddr.length = 20) (hdata : data.length < 2 ^ 64) :
    parse_unsigned (build_eip1559_signing_payload chain_id nonce
        max_priority_fee max_fee gas_limit toAddr value data)
      = some (.eip1559 ⟨chain_id, nonce, max_priority_fee, max_fee, gas_limit,
          toAddr, value, data⟩) := by
  rw [build_eip1559_eq_encodeSpanList]
  have hok : ∀ sp ∈ ([(false, beBytes chain_id), (false, beBytes nonce),
      (false, beBytes max_priority_fee), (false, beBytes max_fee),
      (false, beBytes gas_limit), (false, toAddr), (false, beBytes value),
      (false, data), (true, [])] : List Span), spanOk sp := by
    intro sp hsp
    simp only [List.mem_cons, List.not_mem_nil, or_false] at hsp
    rcases hsp with rfl | rfl | rfl | rfl | rfl | rfl | rfl | rfl | rfl
    · exact beBytes_length_lt_of_u256 chain_id hc
    · exact beBytes_length_lt_of_u256 nonce hn
    · exact beBytes_length_lt_of_u256 max_priority_fee hp
    · exact beBytes_length_lt_of_u256 max_fee hm
    · exact beBytes_length_lt_of_u256 gas_limit hl
    · show toAddr.length < 2 ^ 64; omega
    · exact beBytes_length_lt_of_u256 value hv
    · exact hdata
    · trivial
  rw [parse_unsigned_cons, if_pos rfl]
  simp only [parse_eip1559_items, rlpItems_encodeSpanList _ hok,
    decodeUint_beBytes chain_id hc, decodeUint_beBytes nonce hn,
    decodeUint_beBytes max_priority_fee hp, decodeUint_beBytes max_fee hm,
    decodeUint_beBytes gas_limit hl, decodeAddress_eq toAddr hto,
    decodeUint_beBytes value hv, decodeBytes_eq]
  norm_num [splitItems, splitItemsF]

/-- C1: for every valid field tuple (numeric fields at most 256 bits, a
20-byte `to` address, data small enough for the 8-byte RLP length cap),
parsing the bytes produced by the legacy preimage builder returns exactly the
same field tuple, and parsing the bytes produced by the fee-market payload
builder returns exactly the same field tuple. -/
theorem roundtrip_build_parse (toAddr : List Nat)
    (value gas_price gas_limit nonce chain_id max_priority_fee max_fee : Nat)
    (data : List Nat)
    (hv : value < 2 ^ 256) (hg : gas_price < 2 ^ 256)
    (hl : gas_limit < 2 ^ 256) (hn : nonce < 2 ^ 256)
    (hc : chain_id < 2 ^ 256) (hp : max_priority_fee < 2 ^ 256)
    (hm : max_fee < 2 ^ 256) (hto : toAddr.length = 20)
    (hdata : data.length < 2 ^ 64) :
    parse_unsigned (build_legacy_preimage toAddr value gas_price gas_limit
        nonce chain_id data)
      = some (.legacy ⟨nonce, gas_price, gas_limit, toAddr, value, data,
          chain_id⟩)
    ∧ parse_unsigned (build_eip1559_signing_payload chain_id nonce
        max_priority_fee max_fee gas_limit toAddr value data)
      = some (.eip1559 ⟨chain_id, nonce, max_priority_fee, max_fee, gas_limit,
          toAddr, value, data⟩) :=
  ⟨parse_build_legacy toAddr value gas_price gas_limit nonce chain_id data
      hv hg hl hn hc hto hdata,
    parse_build_eip1559 chain_id nonce max_priority_fee max_fee gas_limit
      toAddr value data hc hn hp hm hl hv hto hdata⟩

theorem roundtrip_build_parse_witness :
    parse_unsigned (build_legacy_preimage (List.replicate 20 17)
        1500000000000000000 30000000000 21000 5 1 [])
      = some (.legacy ⟨5, 30000000000, 21000, List.replicate 20 17,
          1500000000000000000, [], 1⟩)
    ∧ parse_unsigned (build_eip1559_signing_payload 1 5 2000000000
        100000000000 21000 (List.replicate 20 17) 1500000000000000000 [])
      = some (.eip1559 ⟨1, 5, 2000000000, 100000000000, 21000,
          List.replicate 20 17, 1500000000000000000, []⟩) :=
  roundtrip_build_parse (List.replicate 20 17) 1500000000000000000
    30000000000 21000 5 1 2000000000 100000000000 []
    (by norm_num) (by norm_num) (by norm_num) (by norm_num) (by norm_num)
    (by norm_num) (by norm_num) (by simp) (by norm_num)

/-- C2: the legacy builder returns exactly the RLP encoding of the 9-item
list [nonce, gasPrice, gasLimit, to, value, data, chainId, 0, 0], whose
items 7 and 8 are zero-length byte strings, and the fee-market builder
returns exactly one leading byte 0x02 followed by the RLP encoding of the
9-item list [chainId, nonce, maxPriorityFeePerGas, maxFeePerGas, gasLimit,
to, value, data, accessList], whose item 8 is a list with zero items. -/
theorem build_canonical_wire_format (toAddr : List Nat)
    (value gas_price gas_limit nonce chain_id max_priority_fee max_fee : Nat)
    (data : List Nat) :
    build_legacy_preimage toAddr value gas_price gas_limit nonce chain_id data
      = encodeSpanList [(false, beBytes nonce), (false, beBytes gas_price),
          (false, beBytes gas_limit), (false, toAddr), (false, beBytes value),
          (false, data), (false, beBytes chain_id), (false, []), (false, [])]
    ∧ build_eip1559_signing_payload chain_id nonce max_priority_fee max_fee
        gas_limit toAddr value data
      = 2 :: encodeSpanList [(false, beBytes chain_id), (false, beBytes nonce),
          (false, beBytes max_priority_fee), (false, beBytes max_fee),
          (false, beBytes gas_limit), (false, toAddr), (false, beBytes value),
          (false, data), (true, [])] :=
  ⟨build_legacy_eq_encodeSpanList toAddr value gas_price gas_limit nonce
      chain_id data,
    build_eip1559_eq_encodeSpanList chain_id nonce max_priority_fee max_fee
      gas_limit toAddr value data⟩

/-- C6: the parser interprets a buffer as a fee-market payload (after
stripping the first byte) exactly when the first byte equals 0x02, and
otherwise interprets the full buffer as a legacy list; and the first byte of
the legacy builder's output is an RLP list prefix, at least 0xc0, hence
never 0x02. -/
theorem type_discrimination (bytes toAddr : List Nat)
    (value gas_price gas_limit nonce chain_id : Nat) (data : List Nat) :
    (∀ rest, bytes = 2 :: rest →
      parse_unsigned bytes = parse_eip1559_items rest)
    ∧ (bytes.head? ≠ some 2 →
      parse_unsigned bytes = parse_legacy_items bytes)
    ∧ 0xc0 ≤ (build_legacy_preimage toAddr value gas_price gas_limit nonce
        chain_id data).headI := by
  refine ⟨?_, ?_, ?_⟩
  · rintro rest rfl
    rw [parse_unsigned_cons, if_pos rfl]
  · intro hhead
    cases bytes with
    | nil => rfl
    | cons b tl =>
      rw [parse_unsigned_cons, if_neg (by
        intro hb
        exact hhead (by rw [hb]; rfl))]
  · rw [build_legacy_eq_encodeSpanList]
    obtain ⟨b, tl, hbt, hb⟩ := encodeSpanList_head [(false, beBytes nonce),
      (false, beBytes gas_price), (false, beBytes gas_limit), (false, toAddr),
      (false, beBytes value), (false, data), (false, beBytes chain_id),
      (false, []), (false, [])]
    rw [hbt]
    exact hb

theorem type_discrimination_witness :
    parse_unsigned [2, 0xc0] = parse_eip1559_items [0xc0]
    ∧ parse_unsigned [0xc1, 0x80] = parse_legacy_items [0xc1, 0x80]
    ∧ 0xc0 ≤ (build_legacy_preimage (List.replicate 20 17) 0 0 0 0 1
        []).headI :=
  ⟨(type_discrimination [2, 0xc0] (List.replicate 20 17) 0 0 0 0 1 []).1
      [0xc0] rfl,
    (type_discrimination [0xc1, 0x80] (List.replicate 20 17) 0 0 0 0 1
      []).2.1 (by decide),
    (type_discrimination [2, 0xc0] (List.replicate 20 17) 0 0 0 0 1 []).2.2⟩

theorem splitItemsF_cons_ne_nil (fuel b : Nat) (tl : List Nat)
    (l : List Span) (h : splitItemsF fuel (b :: tl) = some l) : l ≠ [] := by
  cases fuel with
  | zero =>
    exact absurd h (by simp [splitItemsF])
  | succ f =>
    simp only [splitItemsF] at h
    rcases hsi : splitItem (b :: tl) with - | ⟨isL, pl, rest⟩
    · rw [hsi] at h; exact absurd h (by simp)
    · rw [hsi] at h
      have h2 : (match splitItemsF f rest with
        | none => none
        | some out => some ((isL, pl) :: out)) = some l := h
      rcases hrec : splitItemsF f rest with - | out
      · rw [hrec] at h2; exact absurd h2 (by simp)
      · rw [hrec] at h2
        have : (isL, pl) :: out = l := by simpa using h2
        rw [← this]
        simp

/-- C4: a legacy-shaped 9-item RLP list whose items 7 and 8 are non-empty
byte strings (so they do not decode as the canonical zero placeholders)
always fails to parse. -/
theorem legacy_placeholder_rejection (i0 i1 i2 i3 i4 i5 i6 : Span)
    (s7 s8 : List Nat)
    (hok : ∀ sp ∈ ([i0, i1, i2, i3, i4, i5, i6] : List Span), spanOk sp)
    (h7 : s7 ≠ []) (h8 : s8 ≠ [])
    (h7l : s7.length < 2 ^ 64) (h8l : s8.length < 2 ^ 64) :
    parse_unsigned (encodeSpanList [i0, i1, i2, i3, i4, i5, i6,
      (false, s7), (false, s8)]) = none := by
  have hok9 : ∀ sp ∈ ([i0, i1, i2, i3, i4, i5, i6, (false, s7),
      (false, s8)] : List Span), spanOk sp := by
    intro sp hsp
    simp only [List.mem_cons, List.not_mem_nil, or_false] at hsp
    rcases hsp with h | h | h | h | h | h | h | h | h
    · subst h; exact hok _ (by simp)
    · subst h; exact hok _ (by simp)
    · subst h; exact hok _ (by simp)
    · subst h; exact hok _ (by simp)
    · subst h; exact hok _ (by simp)
    · subst h; exact hok _ (by simp)
    · subst h; exact hok _ (by simp)
    · subst h; exact h7l
    · subst h; exact h8l
  obtain ⟨b, tl, hbt, hb⟩ := encodeSpanList_head [i0, i1, i2, i3, i4, i5, i6,
    (false, s7), (false, s8)]
  rw [hbt, parse_unsigned_cons, if_neg (by omega), ← hbt]
  simp only [parse_legacy_items, rlpItems_encodeSpanList _ hok9]
  cases hd0 : decodeUint i0 with
  | none => simp [hd0]
  | some n0 =>
  cases hd1 : decodeUint i1 with
  | none => simp [hd0, hd1]
  | some n1 =>
  cases hd2 : decodeUint i2 with
  | none => simp [hd0, hd1, hd2]
  | some n2 =>
  cases hd3 : decodeAddress i3 with
  | none => simp [hd0, hd1, hd2, hd3]
  | some a3 =>
  cases hd4 : decodeUint i4 with
  | none => simp [hd0, hd1, hd2, hd3, hd4]
  | some n4 =>
  cases hd5 : decodeBytes i5 with
  | none => simp [hd0, hd1, hd2, hd3, hd4, hd5]
  | some d5 =>
  cases hd6 : decodeUint i6 with
  | none => simp [hd0, hd1, hd2, hd3, hd4, hd5, hd6]
  | some n6 =>
  cases hd7 : decodeUint (false, s7) with
  | none => simp [hd0, hd1, hd2, hd3, hd4, hd5, hd6, hd7]
  | some r7 =>
  cases hd8 : decodeUint (false, s8) with
  | none => simp [hd0, hd1, hd2, hd3, hd4, hd5, hd6, hd7, hd8]
  | some r8 =>
  have hr7 : 0 < r7 := decodeUint_pos_of_ne_nil s7 r7 hd7 h7
  simp [hd0, hd1, hd2, hd3, hd4, hd5, hd6, hd7, hd8]
  intro hzero
  omega

theorem legacy_placeholder_rejection_witness :
    parse_unsigned (encodeSpanList [(false, []), (false, []), (false, []),
      (false, List.replicate 20 0), (false, []), (false, []), (false, []),
      (false, [1]), (false, [1])]) = none :=
  legacy_placeholder_rejection (false, []) (false, []) (false, [])
    (false, List.replicate 20 0) (false, []) (false, []) (false, [])
    [1] [1] (by
      intro sp hsp
      simp only [List.mem_cons, List.not_mem_nil, or_false] at hsp
      rcases hsp with rfl | rfl | rfl | rfl | rfl | rfl | rfl <;>
        simp [spanOk])
    (by simp) (by simp) (by norm_num) (by norm_num)

/-- C5: a 0x02-prefixed fee-market payload whose 9-item list has, at item 8,
anything other than a list with zero items (a byte string, or a list with a
non-empty payload) always fails to parse. -/
theorem accesslist_rejection (i0 i1 i2 i3 i4 i5 i6 i7 : Span) (sp8 : Span)
    (hok : ∀ sp ∈ ([i0, i1, i2, i3, i4, i5, i6, i7, sp8] : List Span),
      spanOk sp)
    (h8 : sp8 ≠ (true, [])) :
    parse_unsigned (2 :: encodeSpanList [i0, i1, i2, i3, i4, i5, i6, i7,
      sp8]) = none := by
  rw [parse_unsigned_cons, if_pos rfl]
  simp only [parse_eip1559_items, rlpItems_encodeSpanList _ hok]
  cases hd0 : decodeUint i0 with
  | none => simp [hd0]
  | some n0 =>
  cases hd1 : decodeUint i1 with
  | none => simp [hd0, hd1]
  | some n1 =>
  cases hd2 : decodeUint i2 with
  | none => simp [hd0, hd1, hd2]
  | some n2 =>
  cases hd3 : decodeUint i3 with
  | none => simp [hd0, hd1, hd2, hd3]
  | some n3 =>
  cases hd4 : decodeUint i4 with
  | none => simp [hd0, hd1, hd2, hd3, hd4]
  | some n4 =>
  cases hd5 : decodeAddress i5 with
  | none => simp [hd0, hd1, hd2, hd3, hd4, hd5]
  | some a5 =>
  cases hd6 : decodeUint i6 with
  | none => simp [hd0, hd1, hd2, hd3, hd4, hd5, hd6]
  | some n6 =>
  cases hd7 : decodeBytes i7 with
  | none => simp [hd0, hd1, hd2, hd3, hd4, hd5, hd6, hd7]
  | some d7 =>
  obtain ⟨isL, p⟩ := sp8
  cases isL
  · simp [hd0, hd1, hd2, hd3, hd4, hd5, hd6, hd7]
  · have hp : p ≠ [] := by
      intro hnil
      exact h8 (by rw [hnil])
    cases p with
    | nil => exact absurd rfl hp
    | cons pb ptl =>
      cases hsp : splitItems (pb :: ptl) with
      | none => simp [hd0, hd1, hd2, hd3, hd4, hd5, hd6, hd7, hsp]
      | some al =>
        have hal : al ≠ [] := splitItemsF_cons_ne_nil _ pb ptl al hsp
        simp [hd0, hd1, hd2, hd3, hd4, hd5, hd6, hd7, hsp,
          List.length_eq_zero, hal]

theorem accesslist_rejection_witness :
    parse_unsigned (2 :: encodeSpanList [(false, []), (false, []),
      (false, []), (false, []), (false, []), (false, List.replicate 20 0),
      (false, []), (false, []), (true, [0x01])]) = none :=
  accesslist_rejection (false, []) (false, []) (false, []) (false, [])
    (false, []) (false, List.replicate 20 0) (false, []) (false, [])
    (true, [0x01]) (by
      intro sp hsp
      simp only [List.mem_cons, List.not_mem_nil, or_false] at hsp
      rcases hsp with rfl | rfl | rfl | rfl | rfl | rfl | rfl | rfl | rfl <;>
        simp [spanOk])
    (by simp)

/-- `U256::as_u64` from the ethers library: returns the value when it fits
in 64 bits and panics otherwise; the panic is modelled as `none`. -/
def as_u64 (n : Nat) : Option Nat := if n < 2 ^ 64 then some n else none

/-- The `TypedTransaction` the Signer hands to the wallet, restricted to the
fields `unsigned_to_typed` fills in; the chain id has passed `as_u64`. -/
inductive TypedTransaction where
  | legacy : LegacyFields → TypedTransaction
  | eip1559 : Eip1559Fields → TypedTransaction
deriving DecidableEq

/-- From src/tx_signer `unsigned_to_typed`: copy the parsed fields into the
request, converting the chain id with `U256::as_u64` (which panics — `none`
here — when the chain id does not fit in 64 bits). -/
def unsigned_to_typed : UnsignedTx → Option TypedTransaction
  | .legacy f =>
    (as_u64 f.chain_id).map fun cid =>
      .legacy ⟨f.nonce, f.gas_price, f.gas_limit, f.toAddr, f.value, f.data,
        cid⟩
  | .eip1559 f =>
    (as_u64 f.chain_id).map fun cid =>
      .eip1559 ⟨cid, f.nonce, f.max_priority_fee, f.max_fee, f.gas_limit,
        f.toAddr, f.value, f.data⟩

/-- Modelled from the spec: the canonical signing bytes the Signer hashes
(`sign_transaction_sync`'s sighash serialization lives in the ethers
library, not under src); spec 4.4 step 1 says they are regenerated from the
parsed model by the same rules as the Preimage Builder. -/
def signing_payload : TypedTransaction → List Nat
  | .legacy f =>
    build_legacy_preimage f.toAddr f.value f.gas_price f.gas_limit f.nonce
      f.chain_id f.data
  | .eip1559 f =>
    build_eip1559_signing_payload f.chain_id f.nonce f.max_priority_fee
      f.max_fee f.gas_limit f.toAddr f.value f.data

/-- The signing bytes produced for a given unsigned input byte buffer, as the
Signer's main computes them: parse, convert, reserialize. -/
def signer_payload_of_input (bytes : List Nat) : Option (List Nat) :=
  match parse_unsigned bytes with
  | none => none
  | some utx =>
    match unsigned_to_typed utx with
    | none => none
    | some t => some (signing_payload t)

/-- Modelled from the spec: v derivation (spec 4.4 step 4), as applied by the
ethers signing wrapper the Signer calls — legacy gets the EIP-155 form
`recoveryId + chainId*2 + 35`, fee-market keeps the raw recovery id. -/
def derive_v : TypedTransaction → Nat → Nat
  | .legacy f, recid => recid + f.chain_id * 2 + 35
  | .eip1559 _, recid => recid

/-- C3: the canonical signing bytes the Signer hashes are regenerated from
the parsed model by the builder's rules — they equal the corresponding
Preimage Builder output for the parsed fields — and any two byte inputs that
parse to the same model yield the identical signing payload, so externally
supplied unsigned bytes are never signed verbatim. -/
theorem signer_reserializes (bytes1 bytes2 : List Nat) (utx : UnsignedTx)
    (t : TypedTransaction) (h1 : parse_unsigned bytes1 = some utx)
    (ht : unsigned_to_typed utx = some t) :
    (∀ f, utx = .legacy f →
      signing_payload t = build_legacy_preimage f.toAddr f.value f.gas_price
        f.gas_limit f.nonce f.chain_id f.data)
    ∧ (∀ f, utx = .eip1559 f →
      signing_payload t = build_eip1559_signing_payload f.chain_id f.nonce
        f.max_priority_fee f.max_fee f.gas_limit f.toAddr f.value f.data)
    ∧ (parse_unsigned bytes2 = some utx →
      signer_payload_of_input bytes1 = signer_payload_of_input bytes2) := by
  refine ⟨?_, ?_, ?_⟩
  · rintro f rfl
    have hcid : as_u64 f.chain_id = some f.chain_id ∧ f.chain_id < 2 ^ 64 := by
      unfold as_u64
      by_cases hlt : f.chain_id < 2 ^ 64
      · exact ⟨if_pos hlt, hlt⟩
      · exfalso
        have hnone : unsigned_to_typed (.legacy f) = none := by
          simp only [unsigned_to_typed, as_u64, if_neg hlt]
          rfl
        rw [hnone] at ht
        exact absurd ht (by simp)
    have ht2 : t = .legacy ⟨f.nonce, f.gas_price, f.gas_limit, f.toAddr,
        f.value, f.data, f.chain_id⟩ := by
      have := ht
      simp only [unsigned_to_typed, hcid.1, Option.map_some] at this
      exact (Option.some_inj.mp this).symm
    rw [ht2]
    rfl
  · rintro f rfl
    have hcid : as_u64 f.chain_id = some f.chain_id ∧ f.chain_id < 2 ^ 64 := by
      unfold as_u64
      by_cases hlt : f.chain_id < 2 ^ 64
      · exact ⟨if_pos hlt, hlt⟩
      · exfalso
        have hnone : unsigned_to_typed (.eip1559 f) = none := by
          simp only [unsigned_to_typed, as_u64, if_neg hlt]
          rfl
        rw [hnone] at ht
        exact absurd ht (by simp)
    have ht2 : t = .eip1559 ⟨f.chain_id, f.nonce, f.max_priority_fee,
        f.max_fee, f.gas_limit, f.toAddr, f.value, f.data⟩ := by
      have := ht
      simp only [unsigned_to_typed, hcid.1, Option.map_some] at this
      exact (Option.some_inj.mp this).symm
    rw [ht2]
    rfl
  · intro h2
    unfold signer_payload_of_input
    rw [h1, h2]

theorem signer_reserializes_witness :
    signing_payload (.legacy ⟨5, 30000000000, 21000, List.replicate 20 17,
        1500000000000000000, [], 1⟩)
      = build_legacy_preimage (List.replicate 20 17) 1500000000000000000
          30000000000 21000 5 1 [] := by
  have h := signer_reserializes
    (build_legacy_preimage (List.replicate 20 17) 1500000000000000000
      30000000000 21000 5 1 [])
    (build_legacy_preimage (List.replicate 20 17) 1500000000000000000
      30000000000 21000 5 1 [])
    (.legacy ⟨5, 30000000000, 21000, List.replicate 20 17,
      1500000000000000000, [], 1⟩)
    (.legacy ⟨5, 30000000000, 21000, List.replicate 20 17,
      1500000000000000000, [], 1⟩)
    (by decide) (by decide)
  exact h.1 ⟨5, 30000000000, 21000, List.replicate 20 17,
    1500000000000000000, [], 1⟩ rfl

/-- C7: for a successfully converted legacy intent the derived v equals
recoveryId + chainId*2 + 35 (hence 37 or 38 when chainId = 1 and the
recovery id is 0 or 1), and for a fee-market intent the derived v equals the
recovery id. -/
theorem v_derivation (bytes : List Nat) (utx : UnsignedTx)
    (t : TypedTransaction) (recid : Nat)
    (hparse : parse_unsigned bytes = some utx)
    (ht : unsigned_to_typed utx = some t) (hrec : recid < 2) :
    (∀ f, t = .legacy f →
      derive_v t recid = recid + f.chain_id * 2 + 35
      ∧ (f.chain_id = 1 →
        derive_v t recid = 37 ∨ derive_v t recid = 38))
    ∧ (∀ f, t = .eip1559 f → derive_v t recid = recid) := by
  refine ⟨?_, ?_⟩
  · rintro f rfl
    refine ⟨rfl, ?_⟩
    intro hc1
    show recid + f.chain_id * 2 + 35 = 37 ∨ recid + f.chain_id * 2 + 35 = 38
    omega
  · rintro f rfl
    rfl

theorem v_derivation_witness :
    derive_v (.legacy ⟨5, 30000000000, 21000, List.replicate 20 17,
        1500000000000000000, [], 1⟩) 0 = 37
      ∨ derive_v (.legacy ⟨5, 30000000000, 21000, List.replicate 20 17,
        1500000000000000000, [], 1⟩) 0 = 38 :=
  ((v_derivation
    (build_legacy_preimage (List.replicate 20 17) 1500000000000000000
      30000000000 21000 5 1 [])
    (.legacy ⟨5, 30000000000, 21000, List.replicate 20 17,
      1500000000000000000, [], 1⟩)
    (.legacy ⟨5, 30000000000, 21000, List.replicate 20 17,
      1500000000000000000, [], 1⟩)
    0 (by decide) (by decide) (by decide)).1
    ⟨5, 30000000000, 21000, List.replicate 20 17,
      1500000000000000000, [], 1⟩ rfl).2 rfl

/-- C10: the sign pipeline is not total over everything the parser accepts —
this parseable legacy preimage carries chainId = 2^64, the parser returns
its intent, and the Signer's model conversion panics (modelled as `none`
from `as_u64`) instead of returning an error. -/
theorem chain_id_overflow_breaks_conversion :
    parse_unsigned (build_legacy_preimage (List.replicate 20 0) 0 0 0 0
        (2 ^ 64) [])
      = some (.legacy ⟨0, 0, 0, List.replicate 20 0, 0, [], 2 ^ 64⟩)
    ∧ unsigned_to_typed (.legacy ⟨0, 0, 0, List.replicate 20 0, 0, [],
        2 ^ 64⟩) = none := by
  constructor
  · decide
  · decide

/-- Outcome of the Inspector's decode chain: a typed transaction, a legacy
signed transaction with an optionally recovered sender, or exhaustion. -/
inductive InspectOutcome (A B C : Type) where
  | typed : A → InspectOutcome A B C
  | legacySigned : B → Option C → InspectOutcome A B C
  | exhausted : InspectOutcome A B C
deriving DecidableEq

/-- From src/tx_inspector `main`: first attempt the typed-transaction decode,
on failure attempt the legacy signed-transaction decode (attaching the result
of sender recovery as an optional field), and give up only when both fail.
The ethers decoders and the ECDSA recovery are library code, abstracted as
parameters. -/
def inspector_decode {A B C : Type} (decodeTyped : List Nat → Option A)
    (decodeLegacySigned : List Nat → Option B) (recoverSender : B → Option C)
    (bytes : List Nat) : InspectOutcome A B C :=
  match decodeTyped bytes with
  | some t => .typed t
  | none =>
    match decodeLegacySigned bytes with
    | some tx => .legacySigned tx (recoverSender tx)
    | none => .exhausted

/-- C8: the decode chain tries the typed interpretation first, falls back to
the legacy signed interpretation only when that fails, returns exhaustion
only when both fail, and reports a sender-recovery failure as an unknown
sender on an otherwise successful legacy decode rather than failing it. -/
theorem inspector_decode_chain {A B C : Type}
    (decodeTyped : List Nat → Option A)
    (decodeLegacySigned : List Nat → Option B)
    (recoverSender : B → Option C) (bytes : List Nat) :
    (∀ t, decodeTyped bytes = some t →
      inspector_decode decodeTyped decodeLegacySigned recoverSender bytes
        = .typed t)
    ∧ (∀ tx, decodeTyped bytes = none → decodeLegacySigned bytes = some tx →
      inspector_decode decodeTyped decodeLegacySigned recoverSender bytes
        = .legacySigned tx (recoverSender tx))
    ∧ (decodeTyped bytes = none → decodeLegacySigned bytes = none →
      inspector_decode decodeTyped decodeLegacySigned recoverSender bytes
        = .exhausted)
    ∧ (∀ tx, decodeTyped bytes = none → decodeLegacySigned bytes = some tx →
      recoverSender tx = none →
      inspector_decode decodeTyped decodeLegacySigned recoverSender bytes
        = .legacySigned tx none) := by
  refine ⟨?_, ?_, ?_, ?_⟩
  · intro t ht
    unfold inspector_decode
    rw [ht]
  · intro tx ht hl
    unfold inspector_decode
    rw [ht, hl]
  · intro ht hl
    unfold inspector_decode
    rw [ht, hl]
  · intro tx ht hl hr
    unfold inspector_decode
    rw [ht, hl]
    show InspectOutcome.legacySigned tx (recoverSender tx)
      = .legacySigned tx none
    rw [hr]

theorem inspector_decode_chain_witness :
    inspector_decode (fun _ => (none : Option Nat))
      (fun _ => (some 7 : Option Nat)) (fun _ => (none : Option Nat)) [0xc0]
      = .legacySigned 7 none :=
  (inspector_decode_chain (fun _ => (none : Option Nat))
    (fun _ => (some 7 : Option Nat)) (fun _ => (none : Option Nat))
    [0xc0]).2.2.2 7 rfl rfl rfl

/-- JSON values as far as the broadcaster's response handling needs them:
`get` looks a key up in an object, `asStr` extracts a string. -/
inductive Json where
  | null : Json
  | bool : Bool → Json
  | num : Int → Json
  | str : String → Json
  | arr : List Json → Json
  | obj : List (String × Json) → Json

/-- `serde_json::Value::get` on an object: the value bound to the key, if
any; `none` on non-objects. -/
def jsonGet (j : Json) (key : String) : Option Json :=
  match j with
  | .obj kvs => (kvs.find? (fun kv => kv.1 == key)).map (fun kv => kv.2)
  | _ => none

/-- `serde_json::Value::as_str`. -/
def jsonAsStr : Json → Option String
  | .str s => some s
  | _ => none

/-- From src/tx_broadcaster `broadcast_transaction`, response handling: the
presence of an `error` member fails the broadcast; otherwise the `result`
member must be a string, which is returned as the transaction hash. -/
def broadcast_classify (resp : Json) : Except String String :=
  match jsonGet resp "error" with
  | some _ => .error "Error broadcasting transaction"
  | none =>
    match (jsonGet resp "result").bind jsonAsStr with
    | some h => .ok h
    | none => .error "Failed to get transaction hash"

/-- C9: the broadcast fails whenever the response body contains an `error`
member (even if a `result` is also present), and succeeds returning the
`result` string exactly when `error` is absent and `result` is a string. -/
theorem broadcast_result_discrimination (resp : Json) :
    (∀ e, jsonGet resp "error" = some e →
      ∃ msg, broadcast_classify resp = .error msg)
    ∧ (jsonGet resp "error" = none → ∀ s, jsonGet resp "result" = some (.str s) →
      broadcast_classify resp = .ok s)
    ∧ (∀ h, broadcast_classify resp = .ok h →
      jsonGet resp "error" = none ∧ jsonGet resp "result" = some (.str h)) := by
  refine ⟨?_, ?_, ?_⟩
  · intro e he
    unfold broadcast_classify
    rw [he]
    exact ⟨_, rfl⟩
  · intro he s hs
    unfold broadcast_classify
    rw [he, hs]
    rfl
  · intro h hok
    unfold broadcast_classify at hok
    rcases he : jsonGet resp "error" with - | e
    · rw [he] at hok
      refine ⟨rfl, ?_⟩
      rcases hr : jsonGet resp "result" with - | j
      · rw [hr] at hok
        exact absurd hok (by simp)
      · rw [hr] at hok
        cases j with
        | str s =>
          have hs : s = h := by
            have : Except.ok (ε := String) s = Except.ok h := hok
            simpa using this
          rw [hs]
        | null => exact absurd hok (by simp [jsonAsStr])
        | bool b => exact absurd hok (by simp [jsonAsStr])
        | num n => exact absurd hok (by simp [jsonAsStr])
        | arr l => exact absurd hok (by simp [jsonAsStr])
        | obj kvs => exact absurd hok (by simp [jsonAsStr])
    · rw [he] at hok
      exact absurd hok (by simp)

theorem broadcast_result_discrimination_witness :
    broadcast_classify (.obj [("jsonrpc", .str "2.0"),
      ("result", .str "0xabc")]) = .ok "0xabc"
    ∧ (∃ msg, broadcast_classify (.obj [("result", .str "0xabc"),
      ("error", .obj [])]) = .error msg) :=
  ⟨(broadcast_result_discrimination (.obj [("jsonrpc", .str "2.0"),
      ("result", .str "0xabc")])).2.1 rfl "0xabc" rfl,
    (broadcast_result_discrimination (.obj [("result", .str "0xabc"),
      ("error", .obj [])])).1 (.obj []) rfl⟩

end OfflineEthToolkit
